import Mathlib

/-!
Shallow embedding of the order-normalization core of `src/basic_bot.py`
(a command-line futures-trading client), together with theorems checking
the natural-language specification against it.

Decimal values are modelled as exact rationals (`ℚ`), matching the spec's
requirement of exact decimal arithmetic.  Python's
`Decimal.to_integral_value(rounding=ROUND_UP)` rounds away from zero and
`ROUND_DOWN` rounds toward zero; both are modelled explicitly.  Functions
that raise exceptions in Python (`compute_qty`, the division inside the
min-notional step) are modelled with `Except`.  Network-fetching wrappers
(`get_symbol_filters`, `get_market_price`) are modelled by passing the
fetched data as explicit arguments, and the network calls made by `main`
are recorded in an explicit trace.
-/

namespace BasicBot

/-- Decimal `ROUND_UP`: round a rational to an integer away from zero. -/
def roundUp (q : ℚ) : ℤ := if 0 ≤ q then ⌈q⌉ else ⌊q⌋

/-- Decimal `ROUND_DOWN`: round a rational to an integer toward zero. -/
def roundDown (q : ℚ) : ℤ := if 0 ≤ q then ⌊q⌋ else ⌈q⌉

/-- Embedding of `ceil_to_step` (basic_bot.py lines 93-97): non-positive
values collapse to 0, otherwise `value/step` is rounded up (away from
zero) to an integer number of steps. -/
def ceil_to_step (value step : ℚ) : ℚ :=
  if value ≤ 0 then 0 else (roundUp (value / step) : ℚ) * step

/-- Embedding of `floor_to_step` (basic_bot.py lines 99-101): `value/step`
is rounded toward zero to an integer number of steps. -/
def floor_to_step (value step : ℚ) : ℚ :=
  (roundDown (value / step) : ℚ) * step

/-- The LOT_SIZE / MIN_NOTIONAL filter values that `compute_qty` extracts
from the exchange-info response (basic_bot.py lines 104-108). -/
structure LotFilters where
  stepSize : ℚ
  minQty : ℚ
  maxQty : ℚ
  minNotional : ℚ
deriving DecidableEq, Repr

/-- Exceptions `compute_qty` can raise: the explicit `ValueError` for a
quantity above `maxQty` (line 126), and the `Decimal` division-by-zero
signal from `min_notional / used_price` (line 115). -/
inductive QtyError
  | quantityExceedsLimit
  | divisionByZero
deriving DecidableEq, Repr

/-- The min-notional escalation step of `compute_qty` (basic_bot.py lines
113-118): if `used_price * qty < min_notional`, recompute the needed
quantity from `min_notional / used_price`, rounded up to the step grid,
and adopt it when it is larger. -/
def bump_for_notional (f : LotFilters) (used_price qty : ℚ) : Except QtyError ℚ :=
  if used_price * qty < f.minNotional then
    if used_price = 0 then .error .divisionByZero
    else
      let needed := ceil_to_step (f.minNotional / used_price) f.stepSize
      .ok (if needed > qty then needed else qty)
  else .ok qty

/-- Steps 1-3 of `compute_qty` (basic_bot.py lines 110-122): round the
requested quantity up to the step grid, escalate for min-notional, then
clamp up to `minQty`. -/
def normalize_qty (f : LotFilters) (requested_qty used_price : ℚ) : Except QtyError ℚ :=
  match bump_for_notional f used_price (ceil_to_step requested_qty f.stepSize) with
  | .error e => .error e
  | .ok qty => .ok (if qty < f.minQty then f.minQty else qty)

/-- Embedding of `compute_qty` (basic_bot.py lines 103-128), with the
symbol filters passed explicitly instead of fetched over the network.
Returns the final quantity and the min-notional, or the raised error. -/
def compute_qty (f : LotFilters) (requested_qty used_price : ℚ) : Except QtyError (ℚ × ℚ) :=
  match normalize_qty f requested_qty used_price with
  | .error e => .error e
  | .ok qty =>
      if qty > f.maxQty then .error .quantityExceedsLimit
      else .ok (qty, f.minNotional)

/-- Embedding of `adjust_price_to_tick` (basic_bot.py lines 130-133), with
the PRICE_FILTER tick size passed explicitly instead of fetched. -/
def adjust_price_to_tick (tickSize price : ℚ) : ℚ :=
  floor_to_step price tickSize

/-- Canonical query-string encoding of an ordered parameter list, as
produced by `urlencode` on the (order-preserving) parameter dict in
`_post_signed` (basic_bot.py line 66). -/
def urlencode (params : List (String × String)) : String :=
  String.intercalate "&" (params.map fun p => p.1 ++ "=" ++ p.2)

/-- Embedding of `sign_payload` (basic_bot.py lines 45-46): the HMAC-SHA256
hex digest of the query string under the secret.  The digest itself is
computed by the external `hmac`/`hashlib` libraries, so it is abstracted
as a function argument. -/
def sign_payload (hmac_sha256_hex : String → String → String)
    (secret qs : String) : String :=
  hmac_sha256_hex secret qs

/-- The parameter list that `_post_signed` (basic_bot.py lines 61-67) sends:
the caller's parameters, then the millisecond timestamp, then the fixed
5000 ms receive window, then a `signature` parameter holding the HMAC of
the query-string encoding of everything before it. -/
def post_signed_params (hmac_sha256_hex : String → String → String)
    (secret : String) (timestamp_ms : ℕ) (params : List (String × String)) :
    List (String × String) :=
  let withAuth := params ++ [("timestamp", toString timestamp_ms), ("recvWindow", "5000")]
  let qs := urlencode withAuth
  withAuth ++ [("signature", sign_payload hmac_sha256_hex secret qs)]

/-- Network calls `main` can issue: the exchange-info query
(`get_symbol_filters`), the ticker query (`get_market_price`) and the
signed order placement (`place_order`). -/
inductive NetCall
  | exchangeInfo
  | tickerPrice
  | placeOrder
deriving DecidableEq, Repr

/-- Order type, as accepted by `main`. -/
inductive OType
  | market
  | limit
deriving DecidableEq, Repr

/-- Errors surfaced by `main`'s order path: the `ValueError` raised for a
LIMIT order with no price (basic_bot.py line 203), and the errors raised
by `compute_qty`. -/
inductive MainError
  | invalidOrderParameters
  | qtyError (e : QtyError)
deriving DecidableEq, Repr

/-- Terminal outcomes of a `main` invocation that did not raise. -/
inductive MainOutcome
  | dryRun (qty : ℚ) (price : Option ℚ)
  | aborted
  | placed (qty : ℚ) (price : Option ℚ)
deriving DecidableEq, Repr

/-- The filter data `main`'s callees read from exchange-info responses. -/
structure SymbolFilters where
  lot : LotFilters
  tickSize : ℚ
deriving DecidableEq, Repr

/-- The order request `main` assembles from flags or interactive prompts
(basic_bot.py lines 173-192): both input paths produce the same fields
(the interactive path fixes `auto_yes = false` and `dry_run = false`). -/
structure MainInput where
  otype : OType
  qty_in : ℚ
  price_in : Option ℚ
  auto_yes : Bool
  dry_run : Bool
  user_confirms : Bool
deriving DecidableEq, Repr

/-- The tail of `main` (basic_bot.py lines 218-228): stop on dry-run, stop
if the user declines, otherwise place the order (one `placeOrder` call). -/
def finishOrder (trace : List NetCall) (inp : MainInput) (qty : ℚ)
    (price : Option ℚ) : List NetCall × Except MainError MainOutcome :=
  if inp.dry_run then (trace, .ok (.dryRun qty price))
  else if !inp.auto_yes && !inp.user_confirms then (trace, .ok .aborted)
  else (trace ++ [NetCall.placeOrder], .ok (.placed qty price))

/-- Embedding of `main`'s order path (basic_bot.py lines 173-246).  The
exchange-info response (`F`) and the ticker response (`market_price`) are
passed as arguments; the returned list records the network calls issued,
in order.  `print_rules` runs first on both input paths and issues an
exchange-info query; `adjust_price_to_tick` and `compute_qty` each issue
their own exchange-info query via `get_symbol_filters`. -/
def runMain (F : SymbolFilters) (market_price : ℚ) (inp : MainInput) :
    List NetCall × Except MainError MainOutcome :=
  let t0 : List NetCall := [NetCall.exchangeInfo]
  match inp.otype with
  | .market =>
      let t2 := t0 ++ [NetCall.tickerPrice] ++ [NetCall.exchangeInfo]
      match compute_qty F.lot inp.qty_in market_price with
      | .error e => (t2, .error (.qtyError e))
      | .ok (q, _) => finishOrder t2 inp q none
  | .limit =>
      match inp.price_in with
      | none => (t0, .error .invalidOrderParameters)
      | some p =>
          let padj := adjust_price_to_tick F.tickSize p
          let t2 := t0 ++ [NetCall.exchangeInfo] ++ [NetCall.exchangeInfo]
          match compute_qty F.lot inp.qty_in padj with
          | .error e => (t2, .error (.qtyError e))
          | .ok (q, _) => finishOrder t2 inp q (some padj)

/-! ### Basic lemmas about the rounding primitives -/

theorem roundUp_intCast (k : ℤ) : roundUp (k : ℚ) = k := by
  unfold roundUp
  split <;> simp

theorem roundDown_intCast (k : ℤ) : roundDown (k : ℚ) = k := by
  unfold roundDown
  split <;> simp

theorem ceil_to_step_nonpos {v : ℚ} (s : ℚ) (h : v ≤ 0) : ceil_to_step v s = 0 := by
  rw [ceil_to_step, if_pos h]

theorem ceil_to_step_of_pos {v s : ℚ} (hv : 0 < v) (hs : 0 < s) :
    ceil_to_step v s = (⌈v / s⌉ : ℚ) * s := by
  rw [ceil_to_step, if_neg (not_le.2 hv), roundUp, if_pos (by positivity)]

theorem ceil_to_step_ge_self (v : ℚ) {s : ℚ} (hs : 0 < s) : v ≤ ceil_to_step v s := by
  rcases le_or_lt v 0 with hv | hv
  · rw [ceil_to_step_nonpos s hv]; exact hv
  · rw [ceil_to_step_of_pos hv hs]
    calc v = v / s * s := (div_mul_cancel₀ v hs.ne').symm
    _ ≤ (⌈v / s⌉ : ℚ) * s := mul_le_mul_of_nonneg_right (Int.le_ceil _) hs.le

theorem ceil_to_step_nonneg (v : ℚ) {s : ℚ} (hs : 0 < s) : 0 ≤ ceil_to_step v s := by
  rcases le_or_lt v 0 with hv | hv
  · rw [ceil_to_step_nonpos s hv]
  · exact le_trans hv.le (ceil_to_step_ge_self v hs)

theorem ceil_to_step_multiple (v s : ℚ) : ∃ k : ℤ, ceil_to_step v s = k * s := by
  rw [ceil_to_step]
  split
  · exact ⟨0, by simp⟩
  · exact ⟨roundUp (v / s), rfl⟩

theorem floor_to_step_multiple (v s : ℚ) : ∃ k : ℤ, floor_to_step v s = k * s :=
  ⟨roundDown (v / s), rfl⟩

theorem ceil_to_step_mono {s : ℚ} (hs : 0 < s) {a b : ℚ} (h : a ≤ b) :
    ceil_to_step a s ≤ ceil_to_step b s := by
  rcases le_or_lt b 0 with hb | hb
  · rw [ceil_to_step_nonpos s (h.trans hb), ceil_to_step_nonpos s hb]
  · rcases le_or_lt a 0 with ha | ha
    · rw [ceil_to_step_nonpos s ha]
      exact ceil_to_step_nonneg b hs
    · rw [ceil_to_step_of_pos ha hs, ceil_to_step_of_pos hb hs]
      have hq : (⌈a / s⌉ : ℤ) ≤ ⌈b / s⌉ := Int.ceil_le_ceil (by gcongr)
      exact mul_le_mul_of_nonneg_right (by exact_mod_cast hq) hs.le

theorem ceil_to_step_le_multiple {v s m : ℚ} {k : ℤ} (hs : 0 < s)
    (hm : m = (k : ℚ) * s) (h0 : 0 ≤ m) (hv : v ≤ m) : ceil_to_step v s ≤ m := by
  rcases le_or_lt v 0 with hvle | hvpos
  · rw [ceil_to_step_nonpos s hvle]; exact h0
  · rw [ceil_to_step_of_pos hvpos hs]
    have hq : (⌈v / s⌉ : ℤ) ≤ k := Int.ceil_le.2 (by rw [div_le_iff₀ hs, ← hm]; exact hv)
    calc (⌈v / s⌉ : ℚ) * s ≤ (k : ℚ) * s :=
          mul_le_mul_of_nonneg_right (by exact_mod_cast hq) hs.le
    _ = m := hm.symm

theorem floor_to_step_of_nonneg {v s : ℚ} (hv : 0 ≤ v) (hs : 0 < s) :
    floor_to_step v s = (⌊v / s⌋ : ℚ) * s := by
  rw [floor_to_step, roundDown, if_pos (by positivity)]

theorem floor_to_step_of_multiple {v s : ℚ} {k : ℤ} (hs : s ≠ 0) (hm : v = (k : ℚ) * s) :
    floor_to_step v s = v := by
  rw [floor_to_step, hm, mul_div_cancel_right₀ _ hs, roundDown_intCast]

theorem ceil_to_step_eval {v s : ℚ} (k : ℤ) (hv : 0 < v) (hs : 0 < s)
    (h1 : ((k : ℚ) - 1) * s < v) (h2 : v ≤ (k : ℚ) * s) :
    ceil_to_step v s = (k : ℚ) * s := by
  rw [ceil_to_step_of_pos hv hs]
  have hk : (⌈v / s⌉ : ℤ) = k := by
    rw [Int.ceil_eq_iff]
    constructor
    · exact (lt_div_iff₀ hs).2 h1
    · rw [div_le_iff₀ hs]; exact h2
  rw [hk]

theorem floor_to_step_eval {v s : ℚ} (k : ℤ) (hv : 0 ≤ v) (hs : 0 < s)
    (h1 : (k : ℚ) * s ≤ v) (h2 : v < ((k : ℚ) + 1) * s) :
    floor_to_step v s = (k : ℚ) * s := by
  rw [floor_to_step_of_nonneg hv hs]
  have hk : (⌊v / s⌋ : ℤ) = k := by
    rw [Int.floor_eq_iff]
    refine ⟨by rw [le_div_iff₀ hs]; exact h1, ?_⟩
    rw [div_lt_iff₀ hs]
    exact h2
  rw [hk]

/-! ### Structural lemmas about `compute_qty` -/

theorem bump_ok_ge {f : LotFilters} {p a qa : ℚ}
    (h : bump_for_notional f p a = .ok qa) : a ≤ qa := by
  unfold bump_for_notional at h
  split at h
  · split at h
    · cases h
    · simp only [Except.ok.injEq] at h
      subst h
      split
      · exact le_of_lt (by assumption)
      · exact le_rfl
  · simp only [Except.ok.injEq] at h
    subst h
    exact le_rfl

theorem bump_ok_notional {f : LotFilters} {p a qa : ℚ} (hs : 0 < f.stepSize)
    (hp : 0 < p) (h : bump_for_notional f p a = .ok qa) :
    f.minNotional ≤ p * qa := by
  unfold bump_for_notional at h
  split at h
  · rw [if_neg hp.ne'] at h
    simp only [Except.ok.injEq] at h
    subst h
    have hneed : f.minNotional / p ≤ ceil_to_step (f.minNotional / p) f.stepSize :=
      ceil_to_step_ge_self _ hs
    have hle : f.minNotional / p ≤
        if ceil_to_step (f.minNotional / p) f.stepSize > a
        then ceil_to_step (f.minNotional / p) f.stepSize else a := by
      split
      · exact hneed
      · exact hneed.trans (not_lt.1 (by assumption))
    rw [div_le_iff₀ hp] at hle
    linarith
  · rename_i hcond
    simp only [Except.ok.injEq] at h
    subst h
    linarith [not_lt.1 hcond]

theorem bump_mono {f : LotFilters} {p a b qa qb : ℚ} (hs : 0 < f.stepSize)
    (hb0 : 0 ≤ b) (k : ℤ) (hbm : b = (k : ℚ) * f.stepSize) (hab : a ≤ b)
    (ha : bump_for_notional f p a = .ok qa)
    (hb : bump_for_notional f p b = .ok qb) : qa ≤ qb := by
  unfold bump_for_notional at ha hb
  by_cases hpa : p * a < f.minNotional
  · rw [if_pos hpa] at ha
    by_cases hp0 : p = 0
    · rw [if_pos hp0] at ha; cases ha
    · rw [if_neg hp0] at ha
      simp only [Except.ok.injEq] at ha
      by_cases hpb : p * b < f.minNotional
      · rw [if_pos hpb, if_neg hp0] at hb
        simp only [Except.ok.injEq] at hb
        subst ha hb
        split <;> split <;> linarith
      · rw [if_neg hpb] at hb
        simp only [Except.ok.injEq] at hb
        subst ha hb
        rcases lt_or_gt_of_ne hp0 with hneg | hpos
        · exfalso
          have hmul : p * b ≤ p * a := mul_le_mul_of_nonpos_left hab hneg.le
          have := not_lt.1 hpb
          linarith
        · have hdiv : f.minNotional / p ≤ b :=
            (div_le_iff₀ hpos).2 (by have := not_lt.1 hpb; linarith)
          have hle : ceil_to_step (f.minNotional / p) f.stepSize ≤ b :=
            ceil_to_step_le_multiple hs hbm hb0 hdiv
          split
          · exact hle
          · exact hab
  · rw [if_neg hpa] at ha
    simp only [Except.ok.injEq] at ha
    subst ha
    by_cases hpb : p * b < f.minNotional
    · rw [if_pos hpb] at hb
      by_cases hp0 : p = 0
      · rw [if_pos hp0] at hb; cases hb
      · rw [if_neg hp0] at hb
        simp only [Except.ok.injEq] at hb
        subst hb
        split
        · exact hab.trans (le_of_lt (by assumption))
        · exact hab
    · rw [if_neg hpb] at hb
      simp only [Except.ok.injEq] at hb
      subst hb
      exact hab

theorem compute_qty_ok_elim {f : LotFilters} {r p q n : ℚ}
    (h : compute_qty f r p = .ok (q, n)) :
    ∃ qb, bump_for_notional f p (ceil_to_step r f.stepSize) = .ok qb ∧
      q = (if qb < f.minQty then f.minQty else qb) ∧ q ≤ f.maxQty ∧ n = f.minNotional := by
  cases hb : bump_for_notional f p (ceil_to_step r f.stepSize) with
  | error e =>
      rw [compute_qty, normalize_qty, hb] at h
      cases h
  | ok qb =>
      rw [compute_qty, normalize_qty, hb] at h
      refine ⟨qb, rfl, ?_⟩
      split at h
      · cases h
      · rename_i qty heq
        simp only [Except.ok.injEq] at heq
        subst heq
        set q' := if qb < f.minQty then f.minQty else qb with hq'
        split at h
        · cases h
        · rename_i hmax
          simp only [Except.ok.injEq, Prod.mk.injEq] at h
          exact ⟨h.1.symm, by rw [← h.1]; exact le_of_not_lt hmax, h.2.symm⟩

theorem compute_qty_exceeds {f : LotFilters} {r p qn : ℚ}
    (hn : normalize_qty f r p = .ok qn) (hmax : f.maxQty < qn) :
    compute_qty f r p = .error .quantityExceedsLimit := by
  unfold compute_qty
  rw [hn]
  simp only
  rw [if_pos hmax]

theorem finishOrder_ok (t : List NetCall) (inp : MainInput) (q : ℚ) (pr : Option ℚ) :
    ∃ o, (finishOrder t inp q pr).2 = Except.ok o := by
  unfold finishOrder
  split
  · exact ⟨_, rfl⟩
  · split
    · exact ⟨_, rfl⟩
    · exact ⟨_, rfl⟩

theorem runMain_error_no_order {F : SymbolFilters} {mkt : ℚ} (inp : MainInput)
    {e : MainError} (h : (runMain F mkt inp).2 = .error e) :
    NetCall.placeOrder ∉ (runMain F mkt inp).1 := by
  obtain ⟨ot, qi, pi, ay, dr, uc⟩ := inp
  cases ot with
  | market =>
      simp only [runMain] at h ⊢
      cases hc : compute_qty F.lot qi mkt with
      | error e2 =>
          simp only [hc] at h ⊢
          decide
      | ok v =>
          obtain ⟨q, n⟩ := v
          simp only [hc] at h ⊢
          obtain ⟨o, ho⟩ := finishOrder_ok
            ([NetCall.exchangeInfo] ++ [NetCall.tickerPrice] ++ [NetCall.exchangeInfo])
            ⟨.market, qi, pi, ay, dr, uc⟩ q none
          rw [ho] at h
          cases h
  | limit =>
      cases pi with
      | none =>
          simp only [runMain]
          decide
      | some pr =>
          simp only [runMain] at h ⊢
          cases hc : compute_qty F.lot qi (adjust_price_to_tick F.tickSize pr) with
          | error e2 =>
              simp only [hc] at h ⊢
              decide
          | ok v =>
              obtain ⟨q, n⟩ := v
              simp only [hc] at h ⊢
              obtain ⟨o, ho⟩ := finishOrder_ok
                ([NetCall.exchangeInfo] ++ [NetCall.exchangeInfo] ++ [NetCall.exchangeInfo])
                ⟨.limit, qi, some pr, ay, dr, uc⟩ q (some (adjust_price_to_tick F.tickSize pr))
              rw [ho] at h
              cases h

/-! ### Concrete evaluations used by witnesses and counterexamples -/

theorem ceil_eval_5half : ceil_to_step ((5 : ℚ) / 2) 1 = 3 := by
  have h := ceil_to_step_eval (v := (5 : ℚ) / 2) (s := 1) 3 (by norm_num) (by norm_num)
    (by norm_num) (by norm_num)
  simpa using h

theorem ceil_eval_1_2 : ceil_to_step (1 : ℚ) 2 = 2 := by
  have h := ceil_to_step_eval (v := (1 : ℚ)) (s := 2) 1 (by norm_num) (by norm_num)
    (by norm_num) (by norm_num)
  simpa using h

theorem ceil_eval_3_1 : ceil_to_step (3 : ℚ) 1 = 3 := by
  have h := ceil_to_step_eval (v := (3 : ℚ)) (s := 1) 3 (by norm_num) (by norm_num)
    (by norm_num) (by norm_num)
  simpa using h

theorem ceil_eval_100_1 : ceil_to_step (100 : ℚ) 1 = 100 := by
  have h := ceil_to_step_eval (v := (100 : ℚ)) (s := 1) 100 (by norm_num) (by norm_num)
    (by norm_num) (by norm_num)
  simpa using h

theorem ceil_eval_1twentieth : ceil_to_step ((1 : ℚ) / 20) 1 = 1 := by
  have h := ceil_to_step_eval (v := (1 : ℚ) / 20) (s := 1) 1 (by norm_num) (by norm_num)
    (by norm_num) (by norm_num)
  simpa using h

theorem ceil_eval_10_1 : ceil_to_step (10 : ℚ) 1 = 10 := by
  have h := ceil_to_step_eval (v := (10 : ℚ)) (s := 1) 10 (by norm_num) (by norm_num)
    (by norm_num) (by norm_num)
  simpa using h

theorem ceil_eval_2_1 : ceil_to_step (2 : ℚ) 1 = 2 := by
  have h := ceil_to_step_eval (v := (2 : ℚ)) (s := 1) 2 (by norm_num) (by norm_num)
    (by norm_num) (by norm_num)
  simpa using h

theorem compute_qty_example_A : compute_qty ⟨1, 1, 1000, 5⟩ 0 2 = .ok (3, 5) := by
  have h0 : ceil_to_step (0 : ℚ) 1 = 0 := ceil_to_step_nonpos 1 le_rfl
  simp only [compute_qty, normalize_qty, bump_for_notional]
  norm_num [h0, ceil_eval_5half]

theorem compute_qty_example_B : compute_qty ⟨2, 3, 10, 1⟩ 1 100 = .ok (3, 1) := by
  simp only [compute_qty, normalize_qty, bump_for_notional]
  norm_num [ceil_eval_1_2]

theorem compute_qty_example_C : compute_qty ⟨1, 2, 10, 5⟩ 3 10 = .ok (3, 5) := by
  simp only [compute_qty, normalize_qty, bump_for_notional]
  norm_num [ceil_eval_3_1]

theorem normalize_qty_example_D : normalize_qty ⟨1, 1, 2, 100⟩ 0 1 = .ok 100 := by
  have h0 : ceil_to_step (0 : ℚ) 1 = 0 := ceil_to_step_nonpos 1 le_rfl
  simp only [normalize_qty, bump_for_notional]
  norm_num [h0, ceil_eval_100_1]

theorem compute_qty_example_D : compute_qty ⟨1, 1, 2, 100⟩ 0 1 = .error .quantityExceedsLimit :=
  compute_qty_exceeds normalize_qty_example_D (by norm_num)

theorem compute_qty_example_E : compute_qty ⟨1, 1, 1000, 5⟩ (-1) 2 = .ok (3, 5) := by
  have h0 : ceil_to_step (-1 : ℚ) 1 = 0 := ceil_to_step_nonpos 1 (by norm_num)
  simp only [compute_qty, normalize_qty, bump_for_notional]
  norm_num [h0, ceil_eval_5half]

theorem compute_qty_example_F : compute_qty ⟨1, 1, 1000, 5⟩ 10 2 = .ok (10, 5) := by
  simp only [compute_qty, normalize_qty, bump_for_notional]
  norm_num [ceil_eval_10_1]

theorem compute_qty_example_G : compute_qty ⟨1, 1, 10, 5⟩ 2 10 = .ok (2, 5) := by
  simp only [compute_qty, normalize_qty, bump_for_notional]
  norm_num [ceil_eval_2_1]

theorem compute_qty_example_H : compute_qty ⟨1, 1, 10, 5⟩ (-1) 100 = .ok (1, 5) := by
  have h0 : ceil_to_step (-1 : ℚ) 1 = 0 := ceil_to_step_nonpos 1 (by norm_num)
  simp only [compute_qty, normalize_qty, bump_for_notional]
  norm_num [h0, ceil_eval_1twentieth]

theorem runMain_example_market_negqty :
    runMain ⟨⟨1, 1, 10, 5⟩, 1⟩ 100 ⟨.market, -1, none, true, false, true⟩
      = ([NetCall.exchangeInfo, NetCall.tickerPrice, NetCall.exchangeInfo,
          NetCall.placeOrder], .ok (.placed 1 none)) := by
  simp only [runMain, compute_qty_example_H, finishOrder]
  norm_num

theorem runMain_example_market_exceeds :
    runMain ⟨⟨1, 1, 2, 100⟩, 1⟩ 1 ⟨.market, 0, none, true, false, true⟩
      = ([NetCall.exchangeInfo, NetCall.tickerPrice, NetCall.exchangeInfo],
         .error (.qtyError .quantityExceedsLimit)) := by
  simp only [runMain, compute_qty_example_D]
  rfl

/-! ### The claims -/

/-- C1: for every `stepSize > 0`, `minQty`, `maxQty`, `minNotional` and every
`referencePrice > 0` with `minNotional > 0`, if `compute_qty` returns
successfully, then the returned final quantity satisfies
`finalQty × referencePrice ≥ minNotional`. -/
theorem C1_notional_met (f : LotFilters) (r p q n : ℚ)
    (hs : 0 < f.stepSize) (hp : 0 < p) (_hN : 0 < f.minNotional)
    (hok : compute_qty f r p = .ok (q, n)) :
    f.minNotional ≤ q * p := by
  obtain ⟨qb, hb, hq, hmax, hn⟩ := compute_qty_ok_elim hok
  have h1 : f.minNotional ≤ p * qb := bump_ok_notional hs hp hb
  have h2 : qb ≤ q := by
    rw [hq]
    split
    · exact le_of_lt (by assumption)
    · exact le_rfl
  calc f.minNotional ≤ p * qb := h1
  _ ≤ p * q := mul_le_mul_of_nonneg_left h2 hp.le
  _ = q * p := mul_comm p q

/-- Witness for C1 at stepSize 1, minQty 1, maxQty 1000, minNotional 5,
requested quantity 0 and reference price 2: the result quantity 3 has
notional 3 × 2 = 6 ≥ 5. -/
theorem C1_notional_met_witness :
    (LotFilters.mk 1 1 1000 5).minNotional ≤ (3 : ℚ) * 2 :=
  C1_notional_met ⟨1, 1, 1000, 5⟩ 0 2 3 5 (by norm_num) (by norm_num) (by norm_num)
    compute_qty_example_A

/-- C5: on every successful return of `compute_qty`, the quantity is at
least `minQty` and at most `maxQty`.  No positivity hypotheses are needed:
the `minQty` clamp runs unconditionally and the `maxQty` check guards the
only successful exit. -/
theorem C5_qty_within_limits (f : LotFilters) (r p q n : ℚ)
    (hok : compute_qty f r p = .ok (q, n)) :
    f.minQty ≤ q ∧ q ≤ f.maxQty := by
  obtain ⟨qb, hb, hq, hmax, hn⟩ := compute_qty_ok_elim hok
  refine ⟨?_, hmax⟩
  rw [hq]
  split
  · exact le_rfl
  · exact le_of_not_lt (by assumption)

/-- Witness for C5 at stepSize 1, minQty 2, maxQty 10, minNotional 5,
requested quantity 3, price 10: the result 3 lies in [2, 10]. -/
theorem C5_qty_within_limits_witness :
    (LotFilters.mk 1 2 10 5).minQty ≤ (3 : ℚ) ∧ (3 : ℚ) ≤ (LotFilters.mk 1 2 10 5).maxQty :=
  C5_qty_within_limits ⟨1, 2, 10, 5⟩ 3 10 3 5 compute_qty_example_C

/-- C6: for every positive value and positive step,
`floor_to_step value step ≤ value < floor_to_step value step + step`,
`ceil_to_step value step - step < value ≤ ceil_to_step value step`, and
both results are exact integer multiples of the step. -/
theorem C6_rounding_bounds (v s : ℚ) (hv : 0 < v) (hs : 0 < s) :
    (floor_to_step v s ≤ v ∧ v < floor_to_step v s + s) ∧
    (ceil_to_step v s - s < v ∧ v ≤ ceil_to_step v s) ∧
    (∃ k : ℤ, floor_to_step v s = k * s) ∧ (∃ k : ℤ, ceil_to_step v s = k * s) := by
  have hfloor := floor_to_step_of_nonneg hv.le hs
  have hceil := ceil_to_step_of_pos hv hs
  refine ⟨⟨?_, ?_⟩, ⟨?_, ceil_to_step_ge_self v hs⟩, floor_to_step_multiple v s,
    ceil_to_step_multiple v s⟩
  · rw [hfloor]
    calc (⌊v / s⌋ : ℚ) * s ≤ v / s * s := mul_le_mul_of_nonneg_right (Int.floor_le _) hs.le
    _ = v := div_mul_cancel₀ v hs.ne'
  · rw [hfloor]
    have h1 : v / s < (⌊v / s⌋ : ℚ) + 1 := Int.lt_floor_add_one _
    have h2 : v / s * s < ((⌊v / s⌋ : ℚ) + 1) * s := mul_lt_mul_of_pos_right h1 hs
    rw [div_mul_cancel₀ v hs.ne', add_mul, one_mul] at h2
    linarith
  · rw [hceil]
    have h1 : (⌈v / s⌉ : ℚ) < v / s + 1 := Int.ceil_lt_add_one _
    have h2 : (⌈v / s⌉ : ℚ) * s < (v / s + 1) * s := mul_lt_mul_of_pos_right h1 hs
    rw [add_mul, div_mul_cancel₀ v hs.ne', one_mul] at h2
    linarith

/-- Witness for C6 at value 5 and step 2. -/
theorem C6_rounding_bounds_witness :
    (floor_to_step (5 : ℚ) 2 ≤ 5 ∧ (5 : ℚ) < floor_to_step 5 2 + 2) ∧
    (ceil_to_step (5 : ℚ) 2 - 2 < 5 ∧ (5 : ℚ) ≤ ceil_to_step 5 2) ∧
    (∃ k : ℤ, floor_to_step (5 : ℚ) 2 = k * 2) ∧
    (∃ k : ℤ, ceil_to_step (5 : ℚ) 2 = k * 2) :=
  C6_rounding_bounds 5 2 (by norm_num) (by norm_num)

/-- C7 counterexample: −2 is an exact integer multiple of the positive step
2, yet `ceil_to_step (−2) 2 = 0 ≠ −2` because of the non-positive guard, so
the claimed idempotence on every on-grid value fails for `ceil_to_step`. -/
theorem C7_counterexample :
    (0 : ℚ) < 2 ∧ (∃ k : ℤ, (-2 : ℚ) = k * 2) ∧ ceil_to_step (-2) 2 ≠ -2 := by
  refine ⟨by norm_num, ⟨-1, by norm_num⟩, ?_⟩
  rw [ceil_to_step_nonpos 2 (by norm_num)]
  norm_num

/-- C7 (amended): for every positive step, `floor_to_step` returns every
exact integer multiple of the step unchanged, and `ceil_to_step` returns
every nonnegative exact integer multiple unchanged (negative multiples are
mapped to 0 by its non-positive guard). -/
theorem C7_idempotent_on_grid (v s : ℚ) (k : ℤ) (hs : 0 < s) (hm : v = (k : ℚ) * s) :
    floor_to_step v s = v ∧ (0 ≤ v → ceil_to_step v s = v) := by
  refine ⟨floor_to_step_of_multiple hs.ne' hm, fun hv => ?_⟩
  rcases eq_or_lt_of_le hv with h0 | h0
  · rw [← h0, ceil_to_step_nonpos s le_rfl]
  · rw [ceil_to_step_of_pos h0 hs, hm, mul_div_cancel_right₀ _ hs.ne', Int.ceil_intCast]

/-- Witness for C7 (amended) at the on-grid value 4 with step 2. -/
theorem C7_idempotent_on_grid_witness :
    floor_to_step (4 : ℚ) 2 = 4 ∧ ((0 : ℚ) ≤ 4 → ceil_to_step (4 : ℚ) 2 = 4) :=
  C7_idempotent_on_grid 4 2 2 (by norm_num) (by norm_num)

/-- C2 counterexample: with stepSize 2, minQty 3, maxQty 10, minNotional 1,
requested quantity 1 and price 100, `compute_qty` succeeds with quantity 3
(the step-3 clamp up to `minQty`), and 3 is not an integer multiple of the
step size 2 — so the returned quantity is not grid-aligned for every
filter set. -/
theorem C2_counterexample :
    compute_qty ⟨2, 3, 10, 1⟩ 1 100 = .ok (3, 1) ∧ ¬ ∃ k : ℤ, (3 : ℚ) = k * 2 := by
  refine ⟨compute_qty_example_B, ?_⟩
  rintro ⟨k, hk⟩
  have hk2 : (3 : ℤ) = k * 2 := by exact_mod_cast hk
  omega

/-- C2 (amended): for every filter set whose `minQty` is itself an exact
integer multiple of `stepSize`, the quantity returned by a successful
`compute_qty` is an exact integer multiple of `stepSize` (including after
the step-3 clamp), and the price returned by `adjust_price_to_tick` is
always an exact integer multiple of `tickSize`. -/
theorem C2_grid_aligned (f : LotFilters) (r p q n tick price : ℚ) (m : ℤ)
    (hmin : f.minQty = (m : ℚ) * f.stepSize)
    (hok : compute_qty f r p = .ok (q, n)) :
    (∃ k : ℤ, q = k * f.stepSize) ∧ ∃ j : ℤ, adjust_price_to_tick tick price = j * tick := by
  obtain ⟨qb, hb, hq, hmax, hn⟩ := compute_qty_ok_elim hok
  refine ⟨?_, floor_to_step_multiple price tick⟩
  have hqb : ∃ k : ℤ, qb = k * f.stepSize := by
    unfold bump_for_notional at hb
    split at hb
    · split at hb
      · cases hb
      · simp only [Except.ok.injEq] at hb
        subst hb
        split
        · exact ceil_to_step_multiple _ _
        · exact ceil_to_step_multiple _ _
    · simp only [Except.ok.injEq] at hb
      subst hb
      exact ceil_to_step_multiple _ _
  rw [hq]
  split
  · exact ⟨m, hmin⟩
  · exact hqb

/-- Witness for C2 (amended): filters with stepSize 1, minQty 1 = 1 × 1,
request 2 at price 10 give quantity 2 = 2 × 1, and price 7/2 at tick 1
floors to 3 = 3 × 1. -/
theorem C2_grid_aligned_witness :
    (∃ k : ℤ, (2 : ℚ) = k * (LotFilters.mk 1 1 10 5).stepSize) ∧
    ∃ j : ℤ, adjust_price_to_tick 1 ((7 : ℚ) / 2) = j * 1 :=
  C2_grid_aligned ⟨1, 1, 10, 5⟩ 2 10 2 5 1 ((7 : ℚ) / 2) 1 (by norm_num)
    compute_qty_example_G

/-- C3 counterexample: for a LIMIT request with no price, the
`InvalidOrderParameters` error is indeed reported, but only after a
network call: the trace already contains the exchange-info query issued by
`print_rules`, so the error is not reported before any network call.
Moreover a non-positive requested quantity (−1, MARKET) is never reported
as `InvalidOrderParameters` at all: the run normalizes it to 1 and places
the order. -/
theorem C3_counterexample :
    (runMain ⟨⟨1, 1, 10, 5⟩, 1⟩ 100 ⟨.limit, 1, none, false, false, false⟩).2
        = .error .invalidOrderParameters ∧
    (runMain ⟨⟨1, 1, 10, 5⟩, 1⟩ 100 ⟨.limit, 1, none, false, false, false⟩).1 ≠ [] ∧
    NetCall.exchangeInfo ∈
      (runMain ⟨⟨1, 1, 10, 5⟩, 1⟩ 100 ⟨.limit, 1, none, false, false, false⟩).1 ∧
    (runMain ⟨⟨1, 1, 10, 5⟩, 1⟩ 100 ⟨.market, -1, none, true, false, true⟩).2
        = .ok (.placed 1 none) := by
  refine ⟨rfl, by decide, by decide, ?_⟩
  rw [runMain_example_market_negqty]

/-- C3 (amended): the `InvalidOrderParameters` error arises exactly for
LIMIT orders with a missing price; it is reported after the single
exchange-info query issued by `print_rules` but before any ticker or
order-placement call; and for every other input — in particular for any
non-positive requested quantity — the run never reports
`InvalidOrderParameters`. -/
theorem C3_invalid_params_reporting (F : SymbolFilters) (mkt : ℚ) (inp : MainInput) :
    (inp.otype = .limit → inp.price_in = none →
      runMain F mkt inp = ([NetCall.exchangeInfo], .error .invalidOrderParameters)) ∧
    (inp.otype = .market ∨ inp.price_in ≠ none →
      (runMain F mkt inp).2 ≠ .error .invalidOrderParameters) := by
  obtain ⟨ot, qi, pi, ay, dr, uc⟩ := inp
  cases ot with
  | market =>
      constructor
      · intro hlim
        cases hlim
      intro _
      simp only [runMain]
      cases hc : compute_qty F.lot qi mkt with
      | error e2 => simp [hc]
      | ok v =>
          obtain ⟨q, n⟩ := v
          simp only [hc]
          obtain ⟨o, ho⟩ := finishOrder_ok
            ([NetCall.exchangeInfo] ++ [NetCall.tickerPrice] ++ [NetCall.exchangeInfo])
            ⟨.market, qi, pi, ay, dr, uc⟩ q none
          rw [ho]
          simp
  | limit =>
      cases pi with
      | none =>
          refine ⟨fun _ _ => rfl, fun hcontra => ?_⟩
          rcases hcontra with hcontra | hcontra
          · cases hcontra
          · exact absurd rfl hcontra
      | some pr =>
          constructor
          · intro _ hnone
            cases hnone
          intro _
          simp only [runMain]
          cases hc : compute_qty F.lot qi (adjust_price_to_tick F.tickSize pr) with
          | error e2 => simp [hc]
          | ok v =>
              obtain ⟨q, n⟩ := v
              simp only [hc]
              obtain ⟨o, ho⟩ := finishOrder_ok
                ([NetCall.exchangeInfo] ++ [NetCall.exchangeInfo] ++ [NetCall.exchangeInfo])
                ⟨.limit, qi, some pr, ay, dr, uc⟩ q (some (adjust_price_to_tick F.tickSize pr))
              rw [ho]
              simp

/-- Witness for C3 (amended) at a concrete filter set and inputs: a LIMIT
order with no price, and (for the second half) a MARKET order with
quantity −1. -/
theorem C3_invalid_params_reporting_witness :
    runMain ⟨⟨1, 1, 10, 5⟩, 1⟩ 100 ⟨.limit, 1, none, false, false, false⟩
        = ([NetCall.exchangeInfo], .error .invalidOrderParameters) ∧
    (runMain ⟨⟨1, 1, 10, 5⟩, 1⟩ 100 ⟨.market, -1, none, true, false, true⟩).2
        ≠ .error .invalidOrderParameters :=
  ⟨(C3_invalid_params_reporting ⟨⟨1, 1, 10, 5⟩, 1⟩ 100
      ⟨.limit, 1, none, false, false, false⟩).1 rfl rfl,
   (C3_invalid_params_reporting ⟨⟨1, 1, 10, 5⟩, 1⟩ 100
      ⟨.market, -1, none, true, false, true⟩).2 (Or.inl rfl)⟩

/-- C4: when the quantity produced by steps 1-3 of the normalization
exceeds `maxQty`, `compute_qty` fails with the quantity-exceeds-limit
error instead of shrinking the quantity, and whenever a run of `main`
ends with that error, no order-placement call appears in its network
trace. -/
theorem C4_exceeds_limit_no_order (f : LotFilters) (r p qn : ℚ)
    (F : SymbolFilters) (mkt : ℚ) (inp : MainInput) :
    (normalize_qty f r p = .ok qn → f.maxQty < qn →
      compute_qty f r p = .error .quantityExceedsLimit) ∧
    ((runMain F mkt inp).2 = .error (.qtyError .quantityExceedsLimit) →
      NetCall.placeOrder ∉ (runMain F mkt inp).1) :=
  ⟨fun hn hmax => compute_qty_exceeds hn hmax,
   fun herr => runMain_error_no_order inp herr⟩

/-- Witness for C4: with stepSize 1, minQty 1, maxQty 2, minNotional 100,
requested quantity 0 and price 1, the normalization escalates to 100 > 2,
`compute_qty` fails with the quantity-exceeds-limit error, and the failing
MARKET run issues no order-placement call. -/
theorem C4_exceeds_limit_no_order_witness :
    compute_qty ⟨1, 1, 2, 100⟩ 0 1 = .error .quantityExceedsLimit ∧
    NetCall.placeOrder ∉
      (runMain ⟨⟨1, 1, 2, 100⟩, 1⟩ 1 ⟨.market, 0, none, true, false, true⟩).1 :=
  ⟨(C4_exceeds_limit_no_order ⟨1, 1, 2, 100⟩ 0 1 100 ⟨⟨1, 1, 2, 100⟩, 1⟩ 1
      ⟨.market, 0, none, true, false, true⟩).1 normalize_qty_example_D (by norm_num),
   (C4_exceeds_limit_no_order ⟨1, 1, 2, 100⟩ 0 1 100 ⟨⟨1, 1, 2, 100⟩, 1⟩ 1
      ⟨.market, 0, none, true, false, true⟩).2
     (by rw [runMain_example_market_exceeds])⟩

/-- C8: the parameter list sent by a signed request consists of the
caller's parameters plus the millisecond timestamp and the fixed 5000 ms
receive window, followed by a `signature` parameter equal to the
HMAC-SHA256 hex digest (keyed by the secret) of the canonical query-string
encoding of exactly those preceding parameters; the signature field itself
is not among the signed parameters. -/
theorem C8_signing_contract (hmac_sha256_hex : String → String → String)
    (secret : String) (ts : ℕ) (params : List (String × String))
    (hsig : "signature" ∉ params.map Prod.fst) :
    ∃ signedPart : List (String × String),
      signedPart = params ++ [("timestamp", toString ts), ("recvWindow", "5000")] ∧
      post_signed_params hmac_sha256_hex secret ts params
        = signedPart ++ [("signature",
            sign_payload hmac_sha256_hex secret (urlencode signedPart))] ∧
      "signature" ∉ signedPart.map Prod.fst := by
  refine ⟨params ++ [("timestamp", toString ts), ("recvWindow", "5000")], rfl, rfl, ?_⟩
  simp only [List.map_append, List.mem_append, List.map_cons, List.map_nil,
    List.mem_cons, List.not_mem_nil, or_false]
  rintro (h | h | h)
  · exact hsig h
  · exact absurd h (by decide)
  · exact absurd h (by decide)

/-- Witness for C8 at a one-parameter request with a concrete digest
function, secret and timestamp. -/
theorem C8_signing_contract_witness :
    ∃ signedPart : List (String × String),
      signedPart = [("symbol", "BTCUSDT")]
          ++ [("timestamp", toString (1700000000000 : ℕ)), ("recvWindow", "5000")] ∧
      post_signed_params (fun s q => s ++ "|" ++ q) "sec" 1700000000000
          [("symbol", "BTCUSDT")]
        = signedPart ++ [("signature",
            sign_payload (fun s q => s ++ "|" ++ q) "sec" (urlencode signedPart))] ∧
      "signature" ∉ signedPart.map Prod.fst :=
  C8_signing_contract (fun s q => s ++ "|" ++ q) "sec" 1700000000000
    [("symbol", "BTCUSDT")] (by decide)

/-- C9 counterexample: requested quantity 0 (non-positive), price 1 > 0 and
minNotional 100 > 0, yet `compute_qty` DOES fail: the notional escalation
drives the quantity to 100, above maxQty 2, raising quantity-exceeds-limit.
So the claim that `compute_qty` never fails on such inputs is false. -/
theorem C9_counterexample :
    (0 : ℚ) ≤ 0 ∧ (0 : ℚ) < 1 ∧ (0 : ℚ) < (LotFilters.mk 1 1 2 100).minNotional ∧
    compute_qty ⟨1, 1, 2, 100⟩ 0 1 = .error .quantityExceedsLimit :=
  ⟨le_rfl, by norm_num, by norm_num, compute_qty_example_D⟩

/-- C9 (amended): for every non-positive requested quantity, positive
price, positive minNotional and positive stepSize, the non-positive input
first rounds to quantity 0 and the minimum-notional step raises it, so
whenever `compute_qty` succeeds its quantity is positive (never zero) and
at least minQty; the request is never reported as invalid, but
`compute_qty` can still fail with quantity-exceeds-limit when the
escalated quantity exceeds maxQty. -/
theorem C9_nonpositive_qty_escalated (f : LotFilters) (r p q n : ℚ)
    (_hr : r ≤ 0) (hp : 0 < p) (hN : 0 < f.minNotional) (hs : 0 < f.stepSize)
    (hok : compute_qty f r p = .ok (q, n)) :
    0 < q ∧ f.minQty ≤ q := by
  obtain ⟨qb, hb, hq, hmax, hn⟩ := compute_qty_ok_elim hok
  have hqb : 0 < qb := by
    have h1 : f.minNotional ≤ p * qb := bump_ok_notional hs hp hb
    nlinarith
  constructor
  · rw [hq]
    split
    · exact lt_trans hqb (by assumption)
    · exact hqb
  · rw [hq]
    split
    · exact le_rfl
    · exact le_of_not_lt (by assumption)

/-- Witness for C9 (amended): requested quantity −1, price 2, filters with
stepSize 1, minQty 1, maxQty 1000, minNotional 5 give quantity 3 > 0 and
3 ≥ minQty. -/
theorem C9_nonpositive_qty_escalated_witness :
    (0 : ℚ) < 3 ∧ (LotFilters.mk 1 1 1000 5).minQty ≤ 3 :=
  C9_nonpositive_qty_escalated ⟨1, 1, 1000, 5⟩ (-1) 2 3 5 (by norm_num) (by norm_num)
    (by norm_num) (by norm_num) compute_qty_example_E

/-- C10: for positive stepSize, a successful `compute_qty` never returns
less than the requested quantity, and it is monotone: on two successful
runs at the same price, a smaller requested quantity never yields a larger
final quantity. -/
theorem C10_never_shrinks_monotone (f : LotFilters) (r1 r2 p q1 q2 n1 n2 : ℚ)
    (hs : 0 < f.stepSize)
    (h1 : compute_qty f r1 p = .ok (q1, n1))
    (h2 : compute_qty f r2 p = .ok (q2, n2)) :
    r1 ≤ q1 ∧ (r1 ≤ r2 → q1 ≤ q2) := by
  obtain ⟨qb1, hb1, hq1, hmax1, hn1⟩ := compute_qty_ok_elim h1
  obtain ⟨qb2, hb2, hq2, hmax2, hn2⟩ := compute_qty_ok_elim h2
  constructor
  · have ha : r1 ≤ ceil_to_step r1 f.stepSize := ceil_to_step_ge_self r1 hs
    have hbge : ceil_to_step r1 f.stepSize ≤ qb1 := bump_ok_ge hb1
    have hclamp : qb1 ≤ q1 := by
      rw [hq1]
      split
      · exact le_of_lt (by assumption)
      · exact le_rfl
    linarith
  · intro hr
    have hmono : ceil_to_step r1 f.stepSize ≤ ceil_to_step r2 f.stepSize :=
      ceil_to_step_mono hs hr
    obtain ⟨k, hk⟩ := ceil_to_step_multiple r2 f.stepSize
    have hqb : qb1 ≤ qb2 :=
      bump_mono hs (ceil_to_step_nonneg r2 hs) k hk hmono hb1 hb2
    rw [hq1, hq2]
    split <;> split <;> linarith

/-- Witness for C10: requested quantities 0 ≤ 10 at price 2 with stepSize 1,
minQty 1, maxQty 1000, minNotional 5 give final quantities 3 and 10. -/
theorem C10_never_shrinks_monotone_witness :
    (0 : ℚ) ≤ 3 ∧ ((0 : ℚ) ≤ 10 → (3 : ℚ) ≤ 10) :=
  C10_never_shrinks_monotone ⟨1, 1, 1000, 5⟩ 0 10 2 3 10 5 5 (by norm_num)
    compute_qty_example_A compute_qty_example_F

end BasicBot
